import Mathlib

/-!
# Wiegand reader for the Raspberry Pi: bit accumulator, frame detector, reader, decoder

A shallow embedding of `wiegand-raspberrypi.c`.

* The three file-scope statics (`__wiegandData`, `__wiegandBitCount`,
  `__wiegandBitTime`) become the fields of `State`; every C function that
  touches them takes the state as an argument and returns the new one.
* `clock_gettime(CLOCK_MONOTONIC, &x)` is an input: the time it stores is
  passed in as a `Timespec` argument.
* `unsigned char` cells are naturals reduced modulo `256` after a shift;
  `int` values are integers, and an `unsigned long` converted to `int` goes
  through `toInt32`.
* `memcpy` into the caller's block is fallible: it yields `none` when the
  requested length is negative or exceeds either block.
-/

namespace Wiegand

/-! ## Constants and data model -/

/-- Capacity of the capture buffer, `#define WIEGANDMAXDATA 32`. -/
def WIEGANDMAXDATA : Nat := 32

/-- Quiet period in nanoseconds, `#define WIEGANDTIMEOUT 3000000`. -/
def WIEGANDTIMEOUT : Int := 3000000

/-- The two fields of `struct timespec` the program reads. -/
structure Timespec where
  tv_sec : Int
  tv_nsec : Int
deriving DecidableEq, Repr

/-- The file-scope statics: `__wiegandData` (one captured bit per byte),
`__wiegandBitCount` and `__wiegandBitTime`. -/
structure State where
  wiegandData : List Nat
  wiegandBitCount : Nat
  wiegandBitTime : Timespec
deriving DecidableEq, Repr

/-- Zero-initialised statics at program start. -/
def initState : State :=
  { wiegandData := List.replicate WIEGANDMAXDATA 0
    wiegandBitCount := 0
    wiegandBitTime := ⟨0, 0⟩ }

/-- Conversion of an `unsigned long` to `int` (reduction modulo `2^32`, read
as two's complement). -/
def toInt32 (n : Nat) : Int :=
  if n % 2 ^ 32 < 2 ^ 31 then ((n % 2 ^ 32 : Nat) : Int)
  else ((n % 2 ^ 32 : Nat) : Int) - 2 ^ 32

/-! ## Pulse callbacks -/

/-- `data0Pulse`: below capacity the current cell is shifted left by one
(as `unsigned char`) and the count is incremented; the timestamp is always
overwritten with the clock reading `t`. -/
def data0Pulse (s : State) (t : Timespec) : State :=
  if s.wiegandBitCount < WIEGANDMAXDATA then
    { wiegandData :=
        s.wiegandData.set s.wiegandBitCount
          ((s.wiegandData.getD s.wiegandBitCount 0 <<< 1) % 256)
      wiegandBitCount := s.wiegandBitCount + 1
      wiegandBitTime := t }
  else
    { s with wiegandBitTime := t }

/-- `data1Pulse`: as `data0Pulse`, with the low bit of the cell set after the
shift. -/
def data1Pulse (s : State) (t : Timespec) : State :=
  if s.wiegandBitCount < WIEGANDMAXDATA then
    let shifted :=
      s.wiegandData.set s.wiegandBitCount
        ((s.wiegandData.getD s.wiegandBitCount 0 <<< 1) % 256)
    { wiegandData :=
        shifted.set s.wiegandBitCount (shifted.getD s.wiegandBitCount 0 ||| 1)
      wiegandBitCount := s.wiegandBitCount + 1
      wiegandBitTime := t }
  else
    { s with wiegandBitTime := t }

/-- Index of the buffer cell a pulse callback writes in state `s`: the
subscript `__wiegandBitCount` under the guard, or nothing when the guard
fails. -/
def pulseWriteIndex (s : State) : Option Nat :=
  if s.wiegandBitCount < WIEGANDMAXDATA then some s.wiegandBitCount else none

/-! ## Reset, detector, reader -/

/-- `wiegandReset`: `memset` of the whole buffer to zero and count to zero.
The timestamp is not touched. -/
def wiegandReset (s : State) : State :=
  { wiegandData := List.replicate WIEGANDMAXDATA 0
    wiegandBitCount := 0
    wiegandBitTime := s.wiegandBitTime }

/-- `wiegandGetPendingBitCount` with `now` the clock reading: the two fields
of the timestamps are subtracted separately and compared separately. -/
def wiegandGetPendingBitCount (s : State) (now : Timespec) : Int :=
  let delta : Timespec :=
    { tv_sec := now.tv_sec - s.wiegandBitTime.tv_sec
      tv_nsec := now.tv_nsec - s.wiegandBitTime.tv_nsec }
  if delta.tv_sec > 1 ∨ delta.tv_nsec > WIEGANDTIMEOUT then
    toInt32 s.wiegandBitCount
  else
    0

/-- `memcpy(dst, src, n)` on byte blocks: the first `n` bytes of `dst` are
replaced by the first `n` bytes of `src`. Undefined (`none`) when `n` is
negative or larger than either block. -/
def memcpy (dst src : List Nat) (n : Int) : Option (List Nat) :=
  if 0 ≤ n ∧ n.toNat ≤ dst.length ∧ n.toNat ≤ src.length then
    some (src.take n.toNat ++ dst.drop n.toNat)
  else
    none

/-- Outcome of one `wiegandReadData` call: the returned `int`, the caller's
block afterwards, and the statics afterwards. -/
structure ReadResult where
  ret : Int
  data : List Nat
  st : State
deriving DecidableEq, Repr

/-- `wiegandReadData(data, dataMaxLen)` with `now` the clock reading taken by
the detector it calls. -/
def wiegandReadData (s : State) (now : Timespec) (data : List Nat)
    (dataMaxLen : Int) : Option ReadResult :=
  if wiegandGetPendingBitCount s now > 0 then
    let bitCount : Int := toInt32 s.wiegandBitCount
    match memcpy data s.wiegandData
        (if bitCount > dataMaxLen then dataMaxLen else bitCount) with
    | some out => some { ret := bitCount, data := out, st := wiegandReset s }
    | none => none
  else
    some { ret := 0, data := data, st := s }

/-! ## Decode loop of `main` -/

/-- The three accumulators of the decode loop, as 32-bit patterns. -/
structure Decoded where
  raw : Nat
  facility : Nat
  code : Nat
deriving DecidableEq, Repr

/-- One iteration of `for (i = 0; i < bitLen; i++)` in `main`. A shift that
leaves the 32 bits of the `int` wraps (the behaviour GCC documents for signed
`<<`). -/
def decodeStep (data : List Nat) (acc : Decoded) (i : Nat) : Decoded :=
  let d := data.getD i 0
  { raw := ((acc.raw <<< 1) % 2 ^ 32) ||| d
    facility :=
      if i > 0 ∧ i < 9 then ((acc.facility <<< 1) % 2 ^ 32) ||| d
      else acc.facility
    code :=
      if i > 8 ∧ i < 25 then ((acc.code <<< 1) % 2 ^ 32) ||| d
      else acc.code }

/-- The decode loop of `main`, started from `raw = facility = code = 0`. -/
def decodeLoop (data : List Nat) (bitLen : Nat) : Decoded :=
  (List.range bitLen).foldl (decodeStep data) { raw := 0, facility := 0, code := 0 }

/-! ## Sequences of calls -/

/-- The pulse callback for a bit: `data0Pulse` for `false`, `data1Pulse` for
`true`. -/
def pulse (s : State) (b : Bool) (t : Timespec) : State :=
  if b then data1Pulse s t else data0Pulse s t

/-- A train of pulses, each with the clock reading of its callback. -/
def pulses (s : State) : List (Bool × Timespec) → State
  | [] => s
  | (b, t) :: rest => pulses (pulse s b t) rest

/-- Buffer indices written, in order, by a train of pulses. -/
def pulseWrites (s : State) : List (Bool × Timespec) → List Nat
  | [] => []
  | (b, t) :: rest =>
    (pulseWriteIndex s).toList ++ pulseWrites (pulse s b t) rest

/-- Nanoseconds from `last` to `now` as one normalised duration. -/
def elapsedNs (last now : Timespec) : Int :=
  (now.tv_sec - last.tv_sec) * 1000000000 + (now.tv_nsec - last.tv_nsec)

/-- A `timespec` whose nanosecond field lies in `[0, 10^9)`. -/
def Timespec.Normalized (t : Timespec) : Prop :=
  0 ≤ t.tv_nsec ∧ t.tv_nsec < 1000000000

instance (t : Timespec) : Decidable t.Normalized := by
  unfold Timespec.Normalized; infer_instance

/-- Bit values carried by a train of pulses, in arrival order. -/
def bitsOf (ps : List (Bool × Timespec)) : List Nat :=
  ps.map (fun p => p.1.toNat)

/-- Reachability from the initial state, indexed by the bits pulsed since the
accumulator was last cleared (by `wiegandReset` or by a `wiegandReadData` that
returned a positive count), in arrival order and capped at capacity.
`wiegandGetPendingBitCount` writes no static, so it contributes no
constructor. -/
inductive Captured : State → List Nat → Prop
  | init : Captured initState []
  | pulse (s : State) (bs : List Nat) (b : Bool) (t : Timespec) :
      Captured s bs →
      Captured (pulse s b t) ((bs ++ [b.toNat]).take WIEGANDMAXDATA)
  | reset (s : State) (bs : List Nat) :
      Captured s bs → Captured (wiegandReset s) []
  | read (s : State) (bs : List Nat) (now : Timespec) (data : List Nat)
      (dataMaxLen : Int) (r : ReadResult) :
      Captured s bs → wiegandReadData s now data dataMaxLen = some r →
      Captured r.st (if r.ret > 0 then [] else bs)

/-- States reachable from the initial state by pulses, resets and reads. -/
def Reachable (s : State) : Prop := ∃ bs, Captured s bs

/-- A poll that writes no pulse: a call of `wiegandGetPendingBitCount` or of
`wiegandReadData`, with the clock reading it takes. -/
inductive Query where
  | pending (now : Timespec)
  | read (now : Timespec) (data : List Nat) (dataMaxLen : Int)

/-- Runs a sequence of polls with no pulse in between and collects the value
each call returns. -/
def runQueries : State → List Query → Option (State × List Int)
  | s, [] => some (s, [])
  | s, Query.pending now :: rest =>
    match runQueries s rest with
    | some (s2, rs) => some (s2, wiegandGetPendingBitCount s now :: rs)
    | none => none
  | s, Query.read now data dataMaxLen :: rest =>
    match wiegandReadData s now data dataMaxLen with
    | some r =>
      match runQueries r.st rest with
      | some (s2, rs) => some (s2, r.ret :: rs)
      | none => none
    | none => none

/-- The statement "the read after the pulses `B` returns the length of `B` and
delivers exactly the bits of `B`". -/
def DeliversExactly (s : State) (B : List (Bool × Timespec)) (now : Timespec)
    (data : List Nat) (dataMaxLen : Int) : Prop :=
  ∃ r, wiegandReadData (pulses s B) now data dataMaxLen = some r ∧
    r.ret = ((bitsOf B).length : Int) ∧
    r.data.take (bitsOf B).length = bitsOf B

/-- Value of a bit list read most-significant bit first. -/
def msbValue (bits : List Nat) : Nat :=
  bits.foldl (fun acc x => 2 * acc + x) 0

/-- Value of the `int` variable `raw` whose 32-bit pattern the decode loop
left in `d.raw` (two's complement reading; `printf("%X")` prints the pattern
itself). -/
def rawValue (d : Decoded) : Int := toInt32 d.raw

/-- One call made by the program or by the interrupt layer, with the clock
reading it takes and, for a read, the caller's block and `dataMaxLen`. -/
inductive Event where
  | data0 (t : Timespec)
  | data1 (t : Timespec)
  | reset
  | pending (now : Timespec)
  | read (now : Timespec) (data : List Nat) (dataMaxLen : Int)

/-- Effect of one call on the statics. `wiegandGetPendingBitCount` only reads
them. -/
def step (s : State) : Event → Option State
  | Event.data0 t => some (data0Pulse s t)
  | Event.data1 t => some (data1Pulse s t)
  | Event.reset => some (wiegandReset s)
  | Event.pending _ => some s
  | Event.read now data dataMaxLen =>
    match wiegandReadData s now data dataMaxLen with
    | some r => some r.st
    | none => none

/-- Sequential execution of a list of calls, one after the other. -/
def run (s : State) : List Event → Option State
  | [] => some s
  | e :: rest =>
    match step s e with
    | some s2 => run s2 rest
    | none => none

/-- A call whose arguments are within its contract: for `wiegandReadData`,
`dataMaxLen` is non-negative and the caller's block has at least that many
bytes. -/
def Event.ArgsFit : Event → Prop
  | Event.read _ data dataMaxLen => 0 ≤ dataMaxLen ∧ dataMaxLen ≤ data.length
  | _ => True

/-- Program points of a pulse callback, one per C statement: the `if` test,
the `<<= 1`, the `|= 1` (only in `data1Pulse`), the `++`, the
`clock_gettime`, and the return. -/
inductive Pc where
  | guard
  | shift
  | setLow
  | incr
  | stamp
  | done
deriving DecidableEq, Repr

/-- One statement of a pulse callback (`one = true` for `data1Pulse`) executed
at program point `pc` on the shared statics: the statics afterwards, the next
program point, and the buffer index written, if any. The subscript
`__wiegandBitCount` is read when the statement runs; a write at a subscript
outside the 32 cells leaves the list as it is and shows only in the recorded
index. -/
def stmt (one : Bool) (t : Timespec) (s : State) : Pc → State × Pc × Option Nat
  | Pc.guard =>
    if s.wiegandBitCount < WIEGANDMAXDATA then (s, Pc.shift, none)
    else (s, Pc.stamp, none)
  | Pc.shift =>
    ({ s with
        wiegandData :=
          s.wiegandData.set s.wiegandBitCount
            ((s.wiegandData.getD s.wiegandBitCount 0 <<< 1) % 256) },
      if one then Pc.setLow else Pc.incr, some s.wiegandBitCount)
  | Pc.setLow =>
    ({ s with
        wiegandData :=
          s.wiegandData.set s.wiegandBitCount
            (s.wiegandData.getD s.wiegandBitCount 0 ||| 1) },
      Pc.incr, some s.wiegandBitCount)
  | Pc.incr => ({ s with wiegandBitCount := s.wiegandBitCount + 1 }, Pc.stamp, none)
  | Pc.stamp => ({ s with wiegandBitTime := t }, Pc.done, none)
  | Pc.done => (s, Pc.done, none)

/-- One callback run alone, statement by statement, from its `if` test. -/
def runAlone (one : Bool) (t : Timespec) (s : State) : Nat → Pc → State
  | 0, _ => s
  | fuel + 1, pc =>
    match stmt one t s pc with
    | (s2, pc2, _) => runAlone one t s2 fuel pc2

/-- The shared statics, the program points of the `data0Pulse` and the
`data1Pulse` activations, and the buffer indices written so far. -/
structure Config where
  shared : State
  pc0 : Pc
  pc1 : Pc
  writes : List Nat
deriving DecidableEq, Repr

/-- Two activations, `data0Pulse` with clock reading `t0` and `data1Pulse` with
clock reading `t1`, interleaved statement by statement: each entry of the
schedule names the activation that runs its next statement (`false` for
`data0Pulse`, `true` for `data1Pulse`). -/
def interleave (t0 t1 : Timespec) (c : Config) : List Bool → Config
  | [] => c
  | false :: rest =>
    match stmt false t0 c.shared c.pc0 with
    | (s2, pc2, w) =>
      interleave t0 t1
        { shared := s2, pc0 := pc2, pc1 := c.pc1, writes := c.writes ++ w.toList } rest
  | true :: rest =>
    match stmt true t1 c.shared c.pc1 with
    | (s2, pc2, w) =>
      interleave t0 t1
        { shared := s2, pc0 := c.pc0, pc1 := pc2, writes := c.writes ++ w.toList } rest

/-- The buffer holds exactly the bits `bs` (one per cell, in order), zero in
every cell after them, and the count is their number. -/
def Holds (s : State) (bs : List Nat) : Prop :=
  s.wiegandData = bs ++ List.replicate (WIEGANDMAXDATA - bs.length) 0 ∧
  s.wiegandBitCount = bs.length ∧
  bs.length ≤ WIEGANDMAXDATA ∧
  ∀ x ∈ bs, x ≤ 1

/-! ## Basic facts about single operations -/

theorem set_getD_append_zero (bs rest : List Nat) (v : Nat) :
    (bs ++ 0 :: rest).set bs.length v = bs ++ v :: rest ∧
    (bs ++ v :: rest).getD bs.length 0 = v := by
  constructor
  · induction bs with
    | nil => simp
    | cons a as ih => simp [ih]
  · induction bs with
    | nil => simp
    | cons a as ih => simpa using ih

theorem replicate_succ_of_lt (n : Nat) (h : n < WIEGANDMAXDATA) :
    List.replicate (WIEGANDMAXDATA - n) 0 =
      0 :: List.replicate (WIEGANDMAXDATA - (n + 1)) 0 := by
  have : WIEGANDMAXDATA - n = (WIEGANDMAXDATA - (n + 1)) + 1 := by omega
  rw [this, List.replicate_succ]

theorem data0Pulse_store (bs rest : List Nat) (t0 t : Timespec)
    (h : bs.length < WIEGANDMAXDATA) :
    data0Pulse ⟨bs ++ 0 :: rest, bs.length, t0⟩ t =
      ⟨bs ++ 0 :: rest, bs.length + 1, t⟩ := by
  have e1 := (set_getD_append_zero bs rest 0).2
  have e2 := (set_getD_append_zero bs rest 0).1
  unfold data0Pulse
  simp only [if_pos h, e1, e2, Nat.zero_shiftLeft, Nat.zero_mod]

theorem data1Pulse_store (bs rest : List Nat) (t0 t : Timespec)
    (h : bs.length < WIEGANDMAXDATA) :
    data1Pulse ⟨bs ++ 0 :: rest, bs.length, t0⟩ t =
      ⟨bs ++ 1 :: rest, bs.length + 1, t⟩ := by
  have e1 := (set_getD_append_zero bs rest 0).2
  have e2 := (set_getD_append_zero bs rest 0).1
  have e3 := (set_getD_append_zero bs rest 1).1
  unfold data1Pulse
  simp only [if_pos h, e1, e2, e3, Nat.zero_shiftLeft, Nat.zero_mod, Nat.zero_or]

theorem holds_pulse_store (s : State) (bs : List Nat) (b : Bool) (t : Timespec)
    (h : Holds s bs) (hlt : bs.length < WIEGANDMAXDATA) :
    Holds (pulse s b t) (bs ++ [b.toNat]) ∧ (pulse s b t).wiegandBitTime = t := by
  obtain ⟨hd, hc, _, hb⟩ := h
  obtain ⟨d, c, t0⟩ := s
  simp only at hd hc
  subst hc
  rw [replicate_succ_of_lt _ hlt] at hd
  subst hd
  have hbits : ∀ x ∈ bs ++ [b.toNat], x ≤ 1 := by
    intro x hx
    rcases List.mem_append.1 hx with hx | hx
    · exact hb x hx
    · cases b <;> simp_all
  have hlen : (bs ++ [b.toNat]).length = bs.length + 1 := by simp
  cases b
  · simp only [pulse, data0Pulse_store bs _ t0 t hlt, Bool.false_eq_true, if_false]
    refine ⟨⟨?_, ?_, ?_, hbits⟩, trivial⟩
    · simp [hlen]
    · simp
    · rw [hlen]; omega
  · simp only [pulse, data1Pulse_store bs _ t0 t hlt, if_true]
    refine ⟨⟨?_, ?_, ?_, hbits⟩, trivial⟩
    · simp [hlen]
    · simp
    · rw [hlen]; omega

theorem pulse_full (s : State) (b : Bool) (t : Timespec)
    (h : ¬ s.wiegandBitCount < WIEGANDMAXDATA) :
    pulse s b t = { s with wiegandBitTime := t } := by
  cases b <;> simp [pulse, data0Pulse, data1Pulse, h]

theorem toInt32_of_le (n : Nat) (h : n ≤ WIEGANDMAXDATA) : toInt32 n = (n : Int) := by
  have h32 : n ≤ 32 := h
  have hmod : n % 2 ^ 32 = n := Nat.mod_eq_of_lt (by omega)
  unfold toInt32
  rw [hmod, if_pos (by omega)]

theorem take_take_append (l r : List Nat) (n : Nat) :
    (l.take n ++ r).take n = (l ++ r).take n := by
  rcases Nat.lt_or_ge l.length n with h | h
  · rw [List.take_of_length_le (Nat.le_of_lt h)]
  · have h1 : (l.take n).length = n := by simp [h]
    rw [List.take_append_of_le_length (by omega), List.take_append_of_le_length h,
      List.take_take, Nat.min_self]

theorem holds_init : Holds initState [] := by
  refine ⟨rfl, rfl, by simp, by simp⟩

theorem holds_reset (s : State) : Holds (wiegandReset s) [] := by
  refine ⟨rfl, rfl, by simp, by simp⟩

theorem holds_pulse (s : State) (bs : List Nat) (b : Bool) (t : Timespec)
    (h : Holds s bs) :
    Holds (pulse s b t) ((bs ++ [b.toNat]).take WIEGANDMAXDATA) := by
  rcases Nat.lt_or_ge bs.length WIEGANDMAXDATA with hlt | hge
  · have hlen : (bs ++ [b.toNat]).length ≤ WIEGANDMAXDATA := by
      simp only [List.length_append, List.length_singleton]; omega
    rw [List.take_of_length_le hlen]
    exact (holds_pulse_store s bs b t h hlt).1
  · obtain ⟨hd, hc, hle, hb⟩ := h
    have hfull : ¬ s.wiegandBitCount < WIEGANDMAXDATA := by omega
    rw [pulse_full s b t hfull, List.take_append_of_le_length hge,
      List.take_of_length_le hle]
    exact ⟨hd, hc, hle, hb⟩

theorem holds_pulses (ps : List (Bool × Timespec)) (s : State) (bs : List Nat)
    (h : Holds s bs) :
    Holds (pulses s ps) ((bs ++ bitsOf ps).take WIEGANDMAXDATA) := by
  induction ps generalizing s bs with
  | nil =>
    simp only [pulses, bitsOf, List.map_nil, List.append_nil]
    rw [List.take_of_length_le h.2.2.1]
    exact h
  | cons p rest ih =>
    obtain ⟨b, t⟩ := p
    have h1 := ih (pulse s b t) _ (holds_pulse s bs b t h)
    rw [take_take_append] at h1
    simpa [pulses, bitsOf, List.append_assoc] using h1

theorem pulse_time (s : State) (b : Bool) (t : Timespec) :
    (pulse s b t).wiegandBitTime = t := by
  by_cases h : s.wiegandBitCount < WIEGANDMAXDATA <;>
    cases b <;> simp [pulse, data0Pulse, data1Pulse, h]

theorem pending_pos_count (s : State) (now : Timespec)
    (hp : wiegandGetPendingBitCount s now > 0) : toInt32 s.wiegandBitCount > 0 := by
  simp only [wiegandGetPendingBitCount] at hp
  split_ifs at hp
  · exact hp
  · omega

theorem read_idle (s : State) (now : Timespec) (data : List Nat) (m : Int)
    (h : ¬ wiegandGetPendingBitCount s now > 0) :
    wiegandReadData s now data m = some ⟨0, data, s⟩ := by
  unfold wiegandReadData
  rw [if_neg h]

theorem read_some_cases (s : State) (now : Timespec) (data : List Nat) (m : Int)
    (r : ReadResult) (hr : wiegandReadData s now data m = some r) :
    (wiegandGetPendingBitCount s now > 0 ∧ r.ret = toInt32 s.wiegandBitCount ∧
        r.st = wiegandReset s) ∨
    (¬ wiegandGetPendingBitCount s now > 0 ∧ r = ⟨0, data, s⟩) := by
  by_cases hp : wiegandGetPendingBitCount s now > 0
  · left
    simp only [wiegandReadData, if_pos hp] at hr
    cases hmem : memcpy data s.wiegandData
        (if toInt32 s.wiegandBitCount > m then m else toInt32 s.wiegandBitCount) with
    | none => rw [hmem] at hr; cases hr
    | some out =>
      rw [hmem] at hr
      cases hr
      exact ⟨hp, rfl, rfl⟩
  · right
    rw [read_idle s now data m hp] at hr
    cases hr
    exact ⟨hp, rfl⟩

theorem read_ready (s : State) (bs : List Nat) (now : Timespec)
    (data : List Nat) (m : Int) (h : Holds s bs)
    (hp : wiegandGetPendingBitCount s now > 0) (hm0 : 0 ≤ m)
    (hm : m ≤ data.length) :
    wiegandReadData s now data m =
      some ⟨(bs.length : Int),
        bs.take (min bs.length m.toNat) ++ data.drop (min bs.length m.toNat),
        wiegandReset s⟩ := by
  obtain ⟨hd, hc, hle, _⟩ := h
  have hle32 : bs.length ≤ 32 := hle
  unfold wiegandReadData
  rw [if_pos hp, hc, toInt32_of_le _ hle]
  have hn : (if (bs.length : Int) > m then m else (bs.length : Int)).toNat
      = min bs.length m.toNat := by
    split <;> omega
  have hn0 : 0 ≤ (if (bs.length : Int) > m then m else (bs.length : Int)) := by
    split <;> omega
  have hsrc : s.wiegandData.length = 32 := by
    rw [hd]; simp [WIEGANDMAXDATA]; omega
  have hcopy : memcpy data s.wiegandData
      (if (bs.length : Int) > m then m else (bs.length : Int)) =
      some (bs.take (min bs.length m.toNat) ++ data.drop (min bs.length m.toNat)) := by
    unfold memcpy
    rw [hn, if_pos ⟨hn0, by omega, by omega⟩, hd,
      List.take_append_of_le_length (Nat.min_le_left _ _)]
  simp only [hcopy]

theorem captured_holds (s : State) (bs : List Nat) (h : Captured s bs) :
    Holds s bs := by
  induction h with
  | init => exact holds_init
  | pulse s bs b t _ ih => exact holds_pulse s bs b t ih
  | reset s bs _ _ => exact holds_reset s
  | read s bs now data m r _ hr ih =>
    rcases read_some_cases s now data m r hr with ⟨hp, hret, hst⟩ | ⟨_, hr0⟩
    · have hpos := pending_pos_count s now hp
      rw [hret, hst, if_pos hpos]
      exact holds_reset s
    · subst hr0
      simpa using ih

/-! ## Round trip through the accumulator and the reader -/

theorem holds_pulses_reset (s0 : State) (ps : List (Bool × Timespec)) :
    Holds (pulses (wiegandReset s0) ps) ((bitsOf ps).take WIEGANDMAXDATA) := by
  simpa using holds_pulses ps (wiegandReset s0) [] (holds_reset s0)

/-- When the detector reports the frame, the reader hands back the pulsed bits
once: `L ≤ 32` pulses from a reset state, a read with room for them, then a
second read. -/
theorem roundtrip_when_reported (s0 : State) (ps : List (Bool × Timespec))
    (now now2 : Timespec) (data data2 : List Nat) (m m2 : Int)
    (hL : ps.length ≤ WIEGANDMAXDATA) (hm : (ps.length : Int) ≤ m)
    (hd : m ≤ data.length)
    (hp : wiegandGetPendingBitCount (pulses (wiegandReset s0) ps) now > 0) :
    wiegandReadData (pulses (wiegandReset s0) ps) now data m =
      some ⟨(ps.length : Int), bitsOf ps ++ data.drop ps.length,
        wiegandReset (pulses (wiegandReset s0) ps)⟩ ∧
    wiegandReadData (wiegandReset (pulses (wiegandReset s0) ps)) now2 data2 m2 =
      some ⟨0, data2, wiegandReset (pulses (wiegandReset s0) ps)⟩ := by
  have hlen : (bitsOf ps).length = ps.length := by simp [bitsOf]
  have hh := holds_pulses_reset s0 ps
  rw [List.take_of_length_le (by rw [hlen]; exact hL)] at hh
  constructor
  · have h := read_ready _ _ now data m hh hp (by omega) hd
    rw [hlen] at h
    have hmin : min ps.length m.toNat = ps.length := by omega
    rw [hmin, List.take_of_length_le (by rw [hlen])] at h
    exact h
  · apply read_idle
    simp [wiegandGetPendingBitCount, wiegandReset, toInt32]

theorem pending_zero_of_count_zero (s : State) (now : Timespec)
    (h : s.wiegandBitCount = 0) : wiegandGetPendingBitCount s now = 0 := by
  simp [wiegandGetPendingBitCount, h, toInt32]

theorem runQueries_idle (s : State) (h : s.wiegandBitCount = 0) (qs : List Query) :
    runQueries s qs = some (s, List.replicate qs.length 0) := by
  induction qs with
  | nil => rfl
  | cons q rest ih =>
    cases q with
    | pending now =>
      simp only [runQueries, ih, pending_zero_of_count_zero s now h,
        List.length_cons, List.replicate_succ]
    | read now data m =>
      have hr : wiegandReadData s now data m = some ⟨0, data, s⟩ :=
        read_idle s now data m (by rw [pending_zero_of_count_zero s now h]; decide)
      simp only [runQueries, hr, ih, List.length_cons, List.replicate_succ]

theorem pulseWrites_lt (ps : List (Bool × Timespec)) (s : State) :
    ∀ i ∈ pulseWrites s ps, i < WIEGANDMAXDATA := by
  induction ps generalizing s with
  | nil => intro i hi; simp [pulseWrites] at hi
  | cons p rest ih =>
    obtain ⟨b, t⟩ := p
    intro i hi
    simp only [pulseWrites, List.mem_append] at hi
    rcases hi with hi | hi
    · unfold pulseWriteIndex at hi
      split_ifs at hi with hlt
      · simp at hi; omega
      · simp at hi
    · exact ih _ i hi

theorem captured_pulses (ps : List (Bool × Timespec)) (s : State) (bs : List Nat)
    (h : Captured s bs) :
    Captured (pulses s ps) ((bs ++ bitsOf ps).take WIEGANDMAXDATA) := by
  induction ps generalizing s bs with
  | nil =>
    simp only [pulses, bitsOf, List.map_nil, List.append_nil]
    rw [List.take_of_length_le (captured_holds s bs h).2.2.1]
    exact h
  | cons p rest ih =>
    obtain ⟨b, t⟩ := p
    have h1 := ih (pulse s b t) _ (Captured.pulse s bs b t h)
    rw [take_take_append] at h1
    simpa [pulses, bitsOf, List.append_assoc] using h1

theorem reachable_count_le (s : State) (h : Reachable s) :
    s.wiegandBitCount ≤ WIEGANDMAXDATA := by
  obtain ⟨bs, hb⟩ := h
  have hh := captured_holds s bs hb
  rw [hh.2.1]
  exact hh.2.2.1

/-! ## Decode loop -/

theorem msbValue_append_singleton (l : List Nat) (x : Nat) :
    msbValue (l ++ [x]) = 2 * msbValue l + x := by
  simp [msbValue, List.foldl_append]

theorem msbValue_lt (l : List Nat) (h : ∀ x ∈ l, x ≤ 1) :
    msbValue l < 2 ^ l.length := by
  induction l using List.reverseRecOn with
  | nil => simp [msbValue]
  | append_singleton l x ih =>
    have hx : x ≤ 1 := h x (by simp)
    have hl := ih (fun y hy => h y (by simp [hy]))
    rw [msbValue_append_singleton, List.length_append, List.length_singleton, pow_succ]
    omega

theorem shift_or_bit (a d : Nat) (ha : a < 2 ^ 31) (hd : d ≤ 1) :
    ((a <<< 1) % 2 ^ 32) ||| d = 2 * a + d := by
  have h1 : a <<< 1 = 2 * a := by rw [Nat.shiftLeft_eq]; omega
  have h2 : (2 * a) % 2 ^ 32 = 2 * a := Nat.mod_eq_of_lt (by omega)
  rw [h1, h2]
  have hd2 : d < 2 ^ 1 := by omega
  have h3 := Nat.mul_add_lt_is_or hd2 a
  rw [Nat.pow_one] at h3
  exact h3.symm

theorem getD_of_lt (b : List Nat) (k : Nat) (hk : k < b.length) :
    b.take (k + 1) = b.take k ++ [b.getD k 0] := by
  rw [List.take_succ, List.getD_eq_getElem?_getD, List.getElem?_eq_getElem hk]
  rfl

/-- Effect of one more loop index on the value of the bits at positions
`lo ≤ i < hi` seen so far. -/
theorem field_step (b : List Nat) (lo hi k : Nat) (hk : k < b.length) :
    (lo ≤ k ∧ k < hi →
      msbValue ((b.take (min (k + 1) hi)).drop lo) =
        2 * msbValue ((b.take (min k hi)).drop lo) + b.getD k 0) ∧
    (¬ (lo ≤ k ∧ k < hi) →
      msbValue ((b.take (min (k + 1) hi)).drop lo) =
        msbValue ((b.take (min k hi)).drop lo)) := by
  constructor
  · rintro ⟨h1, h2⟩
    have e1 : min (k + 1) hi = k + 1 := by omega
    have e2 : min k hi = k := by omega
    have hlen : lo ≤ (b.take k).length := by rw [List.length_take]; omega
    rw [e1, e2, getD_of_lt b k hk, List.drop_append_of_le_length hlen,
      msbValue_append_singleton]
  · intro h
    rcases Nat.lt_or_ge k lo with h1 | h1
    · rw [List.drop_eq_nil_of_le (by rw [List.length_take]; omega),
        List.drop_eq_nil_of_le (by rw [List.length_take]; omega)]
    · have e1 : min (k + 1) hi = hi := by omega
      have e2 : min k hi = hi := by omega
      rw [e1, e2]

theorem field_lt (b : List Nat) (lo hi k : Nat) (hb : ∀ x ∈ b, x ≤ 1) :
    msbValue ((b.take (min k hi)).drop lo) < 2 ^ (hi - lo) := by
  have h1 := msbValue_lt ((b.take (min k hi)).drop lo)
    (fun x hx => hb x (List.mem_of_mem_take (List.mem_of_mem_drop hx)))
  have h2 : ((b.take (min k hi)).drop lo).length ≤ hi - lo := by
    rw [List.length_drop, List.length_take]; omega
  exact Nat.lt_of_lt_of_le h1 (Nat.pow_le_pow_right (by decide) h2)

theorem decodeLoop_succ (b : List Nat) (k : Nat) :
    decodeLoop b (k + 1) = decodeStep b (decodeLoop b k) k := by
  simp [decodeLoop, List.range_succ, List.foldl_append]

theorem decodeLoop_fields (b : List Nat) (hb : ∀ x ∈ b, x ≤ 1) (k : Nat)
    (hk : k ≤ b.length) :
    (decodeLoop b k).facility = msbValue ((b.take (min k 9)).drop 1) ∧
    (decodeLoop b k).code = msbValue ((b.take (min k 25)).drop 9) := by
  induction k with
  | zero => simp [decodeLoop, msbValue]
  | succ k ih =>
    obtain ⟨ihf, ihc⟩ := ih (by omega)
    have hk2 : k < b.length := by omega
    have hd : b.getD k 0 ≤ 1 := by
      rw [List.getD_eq_getElem _ _ hk2]
      exact hb _ (List.getElem_mem hk2)
    have hf := field_lt b 1 9 k hb
    have hc := field_lt b 9 25 k hb
    have sf := field_step b 1 9 k hk2
    have sc := field_step b 9 25 k hk2
    rw [decodeLoop_succ]
    constructor
    · by_cases hr : k > 0 ∧ k < 9
      · simp only [decodeStep, if_pos hr, ihf]
        rw [shift_or_bit _ _ (by
          have : (2 : Nat) ^ (9 - 1) ≤ 2 ^ 31 := by decide
          omega) hd, sf.1 (by omega)]
      · simp only [decodeStep, if_neg hr, ihf]
        rw [sf.2 (by omega)]
    · by_cases hr : k > 8 ∧ k < 25
      · simp only [decodeStep, if_pos hr, ihc]
        rw [shift_or_bit _ _ (by
          have : (2 : Nat) ^ (25 - 9) ≤ 2 ^ 31 := by decide
          omega) hd, sc.1 (by omega)]
      · simp only [decodeStep, if_neg hr, ihc]
        rw [sc.2 (by omega)]

/-! ## The `raw` accumulator -/

theorem decodeLoop_raw (b : List Nat) (hb : ∀ x ∈ b, x ≤ 1) (k : Nat)
    (hk : k ≤ b.length) (h32 : k ≤ 32) :
    (decodeLoop b k).raw = msbValue (b.take k) := by
  induction k with
  | zero => simp [decodeLoop, msbValue]
  | succ k ih =>
    have ihr := ih (by omega) (by omega)
    have hk2 : k < b.length := by omega
    have hd : b.getD k 0 ≤ 1 := by
      rw [List.getD_eq_getElem _ _ hk2]
      exact hb _ (List.getElem_mem hk2)
    have hlt := msbValue_lt (b.take k) (fun x hx => hb x (List.mem_of_mem_take hx))
    have hlen : (b.take k).length = k := by rw [List.length_take]; omega
    rw [hlen] at hlt
    have hpow : (2 : Nat) ^ k ≤ 2 ^ 31 := Nat.pow_le_pow_right (by decide) (by omega)
    rw [decodeLoop_succ, getD_of_lt b k hk2, msbValue_append_singleton]
    simp only [decodeStep, ihr]
    exact shift_or_bit _ _ (by omega) hd

theorem toInt32_of_lt (n : Nat) (h : n < 2 ^ 31) : toInt32 n = (n : Int) := by
  have hmod : n % 2 ^ 32 = n := Nat.mod_eq_of_lt (by omega)
  unfold toInt32
  rw [hmod, if_pos h]

theorem toInt32_of_ge (n : Nat) (h : 2 ^ 31 ≤ n) (h2 : n < 2 ^ 32) :
    toInt32 n = (n : Int) - 2 ^ 32 := by
  have hmod : n % 2 ^ 32 = n := Nat.mod_eq_of_lt h2
  unfold toInt32
  rw [hmod, if_neg (by omega)]

/-! ## Sequential execution stays within the reachable states -/

theorem run_captured (evs : List Event) (s0 s : State) (bs0 : List Nat)
    (h0 : Captured s0 bs0) (hrun : run s0 evs = some s) : ∃ bs, Captured s bs := by
  induction evs generalizing s0 bs0 with
  | nil =>
    simp only [run, Option.some.injEq] at hrun
    subst hrun
    exact ⟨bs0, h0⟩
  | cons e rest ih =>
    cases e with
    | data0 t =>
      simp only [run, step] at hrun
      exact ih _ _ (Captured.pulse s0 bs0 false t h0) hrun
    | data1 t =>
      simp only [run, step] at hrun
      exact ih _ _ (Captured.pulse s0 bs0 true t h0) hrun
    | reset =>
      simp only [run, step] at hrun
      exact ih _ _ (Captured.reset s0 bs0 h0) hrun
    | pending now =>
      simp only [run, step] at hrun
      exact ih _ _ h0 hrun
    | read now data m =>
      simp only [run, step] at hrun
      cases hr : wiegandReadData s0 now data m with
      | none => rw [hr] at hrun; cases hrun
      | some r =>
        rw [hr] at hrun
        exact ih _ _ (Captured.read s0 bs0 now data m r h0 hr) hrun

theorem run_defined (evs : List Event) (s0 : State) (bs0 : List Nat)
    (h0 : Captured s0 bs0) (hfit : ∀ e ∈ evs, e.ArgsFit) :
    ∃ s, run s0 evs = some s := by
  induction evs generalizing s0 bs0 with
  | nil => exact ⟨s0, rfl⟩
  | cons e rest ih =>
    have hrest : ∀ e2 ∈ rest, e2.ArgsFit := fun e2 h2 => hfit e2 (by simp [h2])
    have he : e.ArgsFit := hfit e (by simp)
    cases e with
    | data0 t =>
      simp only [run, step]
      exact ih _ _ (Captured.pulse s0 bs0 false t h0) hrest
    | data1 t =>
      simp only [run, step]
      exact ih _ _ (Captured.pulse s0 bs0 true t h0) hrest
    | reset =>
      simp only [run, step]
      exact ih _ _ (Captured.reset s0 bs0 h0) hrest
    | pending now =>
      simp only [run, step]
      exact ih _ _ h0 hrest
    | read now data m =>
      obtain ⟨hm0, hm⟩ := he
      have hex : ∃ r, wiegandReadData s0 now data m = some r := by
        by_cases hp : wiegandGetPendingBitCount s0 now > 0
        · exact ⟨_, read_ready s0 bs0 now data m (captured_holds s0 bs0 h0) hp hm0 hm⟩
        · exact ⟨_, read_idle s0 now data m hp⟩
      obtain ⟨r, hr⟩ := hex
      simp only [run, step, hr]
      exact ih _ _ (Captured.read s0 bs0 now data m r h0 hr) hrest

theorem holds_entries (s : State) (bs : List Nat) (h : Holds s bs) :
    s.wiegandData.length = WIEGANDMAXDATA ∧
    (∀ i, i < s.wiegandBitCount → s.wiegandData.getD i 0 ≤ 1) ∧
    (∀ i, s.wiegandBitCount ≤ i → s.wiegandData.getD i 0 = 0) := by
  obtain ⟨hd, hc, hle, hb⟩ := h
  refine ⟨?_, ?_, ?_⟩
  · rw [hd, List.length_append, List.length_replicate]; omega
  · intro i hi
    rw [hc] at hi
    rw [hd, List.getD_append _ _ _ _ hi, List.getD_eq_getElem _ _ hi]
    exact hb _ (List.getElem_mem hi)
  · intro i hi
    rw [hc] at hi
    rw [hd, List.getD_append_right _ _ _ _ hi]
    by_cases hlt : i - bs.length < WIEGANDMAXDATA - bs.length
    · rw [List.getD_eq_getElem _ _ (by rw [List.length_replicate]; exact hlt)]
      simp
    · rw [List.getD_eq_default _ _ (by rw [List.length_replicate]; omega)]

theorem pulse_store_set (s : State) (bs : List Nat) (b : Bool) (t : Timespec)
    (h : Holds s bs) (hlt : s.wiegandBitCount < WIEGANDMAXDATA) :
    (pulse s b t).wiegandData = s.wiegandData.set s.wiegandBitCount b.toNat ∧
    (pulse s b t).wiegandData.getD s.wiegandBitCount 0 = b.toNat ∧
    (pulse s b t).wiegandBitCount = s.wiegandBitCount + 1 := by
  obtain ⟨hd, hc, _, _⟩ := h
  obtain ⟨d, c, t0⟩ := s
  simp only at hd hc hlt
  subst hc
  rw [replicate_succ_of_lt _ hlt] at hd
  subst hd
  have e := fun v =>
    set_getD_append_zero bs (List.replicate (WIEGANDMAXDATA - (bs.length + 1)) 0) v
  cases b
  · simp only [pulse, data0Pulse_store bs _ t0 t hlt, Bool.false_eq_true, if_false,
      Bool.toNat_false]
    exact ⟨(e 0).1.symm, (e 0).2, trivial⟩
  · simp only [pulse, data1Pulse_store bs _ t0 t hlt, if_true, Bool.toNat_true]
    exact ⟨(e 1).1.symm, (e 1).2, trivial⟩

/-! ## Statement-level callbacks agree with the callbacks run alone -/

theorem runAlone_eq_pulse (one : Bool) (t : Timespec) (s : State) :
    runAlone one t s 5 Pc.guard = pulse s one t := by
  by_cases h : s.wiegandBitCount < WIEGANDMAXDATA <;>
    cases one <;>
    simp [runAlone, stmt, pulse, data0Pulse, data1Pulse, h]

/-! ## Claims -/

/-- C1 (fails on the code): one pulse (a `1`) from the reset state at time
`10 s`, then a read one full second later, so the elapsed time is far beyond
the 3 ms timeout. The claim promises a return value of `1` and the bit in the
caller's block; the reader returns `0` and leaves the block and the
accumulator as they were, because the detector compares the seconds and the
nanoseconds differences separately. -/
theorem C1_read_one_second_later_returns_zero :
    elapsedNs (pulses (wiegandReset initState) [(true, ⟨10, 0⟩)]).wiegandBitTime ⟨11, 0⟩
        ≥ WIEGANDTIMEOUT ∧
    (pulses (wiegandReset initState) [(true, ⟨10, 0⟩)]).wiegandBitCount = 1 ∧
    wiegandReadData (pulses (wiegandReset initState) [(true, ⟨10, 0⟩)]) ⟨11, 0⟩
        (List.replicate 32 7) 32 =
      some ⟨0, List.replicate 32 7,
        pulses (wiegandReset initState) [(true, ⟨10, 0⟩)]⟩ := by
  refine ⟨by decide, by decide, by decide⟩

/-- C2 (fails on the code): with five bits captured and the last pulse at
`10.5 s`, the detector returns `0` at `11.4 s`, `0.9 s` after the pulse, where
the claim promises the count `5`; it also returns `0` exactly one second
after a pulse at `10.0 s`. -/
theorem C2_detector_misses_elapsed_timeout :
    elapsedNs ⟨10, 500000000⟩ ⟨11, 400000000⟩ = 900000000 ∧
    wiegandGetPendingBitCount
      ⟨[1, 0, 1, 1, 0] ++ List.replicate 27 0, 5, ⟨10, 500000000⟩⟩
      ⟨11, 400000000⟩ = 0 ∧
    elapsedNs ⟨10, 0⟩ ⟨11, 0⟩ = 1000000000 ∧
    wiegandGetPendingBitCount
      ⟨[1, 0, 1, 1, 0] ++ List.replicate 27 0, 5, ⟨10, 0⟩⟩ ⟨11, 0⟩ = 0 := by
  refine ⟨by decide, by decide, by decide, by decide⟩

/-- C3: no frame is reported early. For every state and every query time
`now` at or after the last-bit timestamp (both normalised), if the true
elapsed time is below the 3 ms timeout then `wiegandGetPendingBitCount`
returns `0`, whatever the bit count and also across a change of the seconds
field. -/
theorem C3_no_early_report (s : State) (now : Timespec)
    (hlast : s.wiegandBitTime.Normalized) (hnow : now.Normalized)
    (hge : 0 ≤ elapsedNs s.wiegandBitTime now)
    (hlt : elapsedNs s.wiegandBitTime now < WIEGANDTIMEOUT) :
    wiegandGetPendingBitCount s now = 0 := by
  obtain ⟨l0, l1⟩ := hlast
  obtain ⟨n0, n1⟩ := hnow
  simp only [elapsedNs, WIEGANDTIMEOUT] at hge hlt
  simp only [wiegandGetPendingBitCount, WIEGANDTIMEOUT]
  rw [if_neg]
  omega

/-- Witness for C3: five bits captured, last pulse at `10.999 s`, query at
`11.001 s` (2 ms later, seconds field changed). -/
theorem C3_no_early_report_witness :
    wiegandGetPendingBitCount
      ⟨[1, 0, 1, 1, 0] ++ List.replicate 27 0, 5, ⟨10, 999000000⟩⟩
      ⟨11, 1000000⟩ = 0 :=
  C3_no_early_report
    ⟨[1, 0, 1, 1, 0] ++ List.replicate 27 0, 5, ⟨10, 999000000⟩⟩ ⟨11, 1000000⟩
    (by decide) (by decide) (by decide) (by decide)

/-- C4: in every reachable state, with `bs` the bits captured since the last
clear, at every time at which the detector is positive and for every
`dataMaxLen ≥ 0` that fits the caller's block, `wiegandReadData` returns the
true count `bs.length` (also when it exceeds `dataMaxLen`), replaces the first
`min bs.length dataMaxLen` bytes of the block by the first that many captured
bits in arrival order, leaves the rest of the block as it was, and leaves the
accumulator reset with bit count `0`. -/
theorem C4_read_returns_true_count (s : State) (bs : List Nat) (now : Timespec)
    (data : List Nat) (dataMaxLen : Int) (hs : Captured s bs)
    (hp : wiegandGetPendingBitCount s now > 0) (hm0 : 0 ≤ dataMaxLen)
    (hm : dataMaxLen ≤ data.length) :
    s.wiegandBitCount = bs.length ∧
    wiegandReadData s now data dataMaxLen =
      some ⟨(bs.length : Int),
        bs.take (min bs.length dataMaxLen.toNat) ++
          data.drop (min bs.length dataMaxLen.toNat),
        wiegandReset s⟩ ∧
    (wiegandReset s).wiegandBitCount = 0 :=
  ⟨(captured_holds s bs hs).2.1,
    read_ready s bs now data dataMaxLen (captured_holds s bs hs) hp hm0 hm, rfl⟩

/-- Witness for C4: three bits `1,0,1` pulsed from the initial state, read
5 ms later into a three-byte block with `dataMaxLen = 2`: the call returns `3`
and only the first two bytes change. -/
theorem C4_read_returns_true_count_witness :
    (pulses initState [(true, ⟨0, 0⟩), (false, ⟨0, 1⟩), (true, ⟨0, 2⟩)]).wiegandBitCount = 3 ∧
    wiegandReadData
        (pulses initState [(true, ⟨0, 0⟩), (false, ⟨0, 1⟩), (true, ⟨0, 2⟩)])
        ⟨0, 5000002⟩ [9, 9, 9] 2 =
      some ⟨3, [1, 0, 9],
        wiegandReset (pulses initState [(true, ⟨0, 0⟩), (false, ⟨0, 1⟩), (true, ⟨0, 2⟩)])⟩ ∧
    (wiegandReset
      (pulses initState [(true, ⟨0, 0⟩), (false, ⟨0, 1⟩), (true, ⟨0, 2⟩)])).wiegandBitCount = 0 :=
  C4_read_returns_true_count
    (pulses initState [(true, ⟨0, 0⟩), (false, ⟨0, 1⟩), (true, ⟨0, 2⟩)])
    [1, 0, 1] ⟨0, 5000002⟩ [9, 9, 9] 2
    (Captured.pulse _ _ true ⟨0, 2⟩
      (Captured.pulse _ _ false ⟨0, 1⟩
        (Captured.pulse _ _ true ⟨0, 0⟩ Captured.init)))
    (by decide) (by decide) (by decide)

/-- C5 (counterexample): frame `A = [1]` is complete and unread at `4 ms`, a
new frame `B = [0]` is pulsed at `5 ms`, and the read at `10 ms` does not
deliver exactly `B`: it returns `2` with the bits `1,0`. -/
theorem C5_unread_frame_not_overwritten :
    wiegandGetPendingBitCount (pulses initState [(true, ⟨0, 0⟩)]) ⟨0, 4000000⟩ > 0 ∧
    wiegandReadData
        (pulses (pulses initState [(true, ⟨0, 0⟩)]) [(false, ⟨0, 5000000⟩)])
        ⟨0, 10000000⟩ (List.replicate 32 7) 32 =
      some ⟨2, [1, 0] ++ List.replicate 30 7,
        wiegandReset
          (pulses (pulses initState [(true, ⟨0, 0⟩)]) [(false, ⟨0, 5000000⟩)])⟩ ∧
    ¬ DeliversExactly (pulses initState [(true, ⟨0, 0⟩)]) [(false, ⟨0, 5000000⟩)]
        ⟨0, 10000000⟩ (List.replicate 32 7) 32 := by
  have hread : wiegandReadData
        (pulses (pulses initState [(true, ⟨0, 0⟩)]) [(false, ⟨0, 5000000⟩)])
        ⟨0, 10000000⟩ (List.replicate 32 7) 32 =
      some ⟨2, [1, 0] ++ List.replicate 30 7,
        wiegandReset
          (pulses (pulses initState [(true, ⟨0, 0⟩)]) [(false, ⟨0, 5000000⟩)])⟩ := by
    decide
  refine ⟨by decide, hread, ?_⟩
  rintro ⟨r, hr, hret, _⟩
  rw [hread] at hr
  cases hr
  revert hret
  decide

/-- C5 (amended): a new frame arriving before the previous one is drained is
appended to it. For every reachable state holding an unread completed frame
`A` (bit count positive, detector positive at `tA`), after the pulses of a new
frame `B`, at every time at which the detector is positive, `wiegandReadData`
with a block of at least `dataMaxLen ≥ 0` bytes returns the length of `A`
followed by `B` capped at `32`, and delivers the first `dataMaxLen` of those
bits, `A` first. -/
theorem C5_new_frame_is_appended (s : State) (A : List Nat) (tA : Timespec)
    (B : List (Bool × Timespec)) (now : Timespec) (data : List Nat)
    (dataMaxLen : Int) (hs : Captured s A)
    (_hA : wiegandGetPendingBitCount s tA > 0)
    (hp : wiegandGetPendingBitCount (pulses s B) now > 0)
    (hm0 : 0 ≤ dataMaxLen) (hm : dataMaxLen ≤ data.length) :
    wiegandReadData (pulses s B) now data dataMaxLen =
      some ⟨(min (A.length + B.length) WIEGANDMAXDATA : Nat),
        (A ++ bitsOf B).take (min (min (A.length + B.length) WIEGANDMAXDATA) dataMaxLen.toNat) ++
          data.drop (min (min (A.length + B.length) WIEGANDMAXDATA) dataMaxLen.toNat),
        wiegandReset (pulses s B)⟩ := by
  have hh := holds_pulses B s A (captured_holds s A hs)
  have h := read_ready _ _ now data dataMaxLen hh hp hm0 hm
  have hlen : ((A ++ bitsOf B).take WIEGANDMAXDATA).length
      = min (A.length + B.length) WIEGANDMAXDATA := by
    simp [bitsOf, Nat.min_comm]
  rw [hlen, List.take_take] at h
  have hmin : min (min (min (A.length + B.length) WIEGANDMAXDATA) dataMaxLen.toNat)
      WIEGANDMAXDATA = min (min (A.length + B.length) WIEGANDMAXDATA) dataMaxLen.toNat := by
    omega
  rw [hmin] at h
  exact h

/-- Witness for C5 (amended): `A = [1]` complete at 4 ms, `B = [0]` pulsed at
5 ms, read at 10 ms into 32 bytes: the call returns `2` with the bits `1,0`. -/
theorem C5_new_frame_is_appended_witness :
    wiegandReadData
        (pulses (pulses initState [(true, ⟨0, 0⟩)]) [(false, ⟨0, 5000000⟩)])
        ⟨0, 10000000⟩ (List.replicate 32 7) 32 =
      some ⟨2, [1, 0] ++ List.replicate 30 7,
        wiegandReset
          (pulses (pulses initState [(true, ⟨0, 0⟩)]) [(false, ⟨0, 5000000⟩)])⟩ :=
  C5_new_frame_is_appended (pulses initState [(true, ⟨0, 0⟩)]) [1] ⟨0, 4000000⟩
    [(false, ⟨0, 5000000⟩)] ⟨0, 10000000⟩ (List.replicate 32 7) 32
    (Captured.pulse _ _ true ⟨0, 0⟩ Captured.init)
    (by decide) (by decide) (by decide) (by decide)

/-- C6: reads are one-shot and reset clears. From every state `s0`, the state
`s` left by `wiegandReset`, or by a `wiegandReadData` call that returned a
positive count, has bit count `0`, and every sequence of later
`wiegandGetPendingBitCount` and `wiegandReadData` calls with no pulse in
between, at any times, returns `0` at each call and leaves `s` as it is. -/
theorem C6_reset_and_read_are_one_shot (s0 s : State)
    (h : s = wiegandReset s0 ∨
      ∃ now data dataMaxLen r,
        wiegandReadData s0 now data dataMaxLen = some r ∧ r.ret > 0 ∧ s = r.st)
    (qs : List Query) :
    s.wiegandBitCount = 0 ∧
    runQueries s qs = some (s, List.replicate qs.length 0) := by
  have hc : s.wiegandBitCount = 0 := by
    rcases h with h | ⟨now, data, m, r, hr, hpos, hs⟩
    · rw [h]; rfl
    · rcases read_some_cases s0 now data m r hr with ⟨_, _, hst⟩ | ⟨_, hr0⟩
      · rw [hs, hst]; rfl
      · subst hr0
        simp at hpos
  exact ⟨hc, runQueries_idle s hc qs⟩

/-- Witness for C6: three bits are read at 5 ms (the call returns `3`), then a
poll and two reads follow at later times. -/
theorem C6_reset_and_read_are_one_shot_witness :
    (wiegandReset
      (pulses initState [(true, ⟨0, 0⟩), (false, ⟨0, 1⟩), (true, ⟨0, 2⟩)])).wiegandBitCount = 0 ∧
    runQueries
        (wiegandReset (pulses initState [(true, ⟨0, 0⟩), (false, ⟨0, 1⟩), (true, ⟨0, 2⟩)]))
        [Query.pending ⟨0, 9000000⟩, Query.read ⟨3, 0⟩ [9, 9] 2, Query.read ⟨7, 5⟩ [] 0] =
      some (wiegandReset (pulses initState [(true, ⟨0, 0⟩), (false, ⟨0, 1⟩), (true, ⟨0, 2⟩)]),
        List.replicate 3 0) :=
  C6_reset_and_read_are_one_shot
    (pulses initState [(true, ⟨0, 0⟩), (false, ⟨0, 1⟩), (true, ⟨0, 2⟩)])
    (wiegandReset (pulses initState [(true, ⟨0, 0⟩), (false, ⟨0, 1⟩), (true, ⟨0, 2⟩)]))
    (Or.inr ⟨⟨0, 5000002⟩, [9, 9, 9], 3,
      ⟨3, [1, 0, 1],
        wiegandReset (pulses initState [(true, ⟨0, 0⟩), (false, ⟨0, 1⟩), (true, ⟨0, 2⟩)])⟩,
      by decide, by decide, rfl⟩)
    [Query.pending ⟨0, 9000000⟩, Query.read ⟨3, 0⟩ [9, 9] 2, Query.read ⟨7, 5⟩ [] 0]

/-- C7: overflow is silently truncated. From a reset state, for every train of
more than `32` pulses: every buffer write is at an index below `32`; the
count is `32` and the buffer holds the first `32` bits in arrival order; count
and buffer are those left by the first `32` pulses alone; and once the
detector reports the frame, `wiegandReadData` with `dataMaxLen = 32` returns
exactly `32` and delivers exactly those first `32` bits. -/
theorem C7_overflow_truncated (s0 : State) (ps : List (Bool × Timespec))
    (now : Timespec) (data : List Nat) (hn : WIEGANDMAXDATA < ps.length)
    (hd : WIEGANDMAXDATA ≤ data.length) :
    (∀ i ∈ pulseWrites (wiegandReset s0) ps, i < WIEGANDMAXDATA) ∧
    (pulses (wiegandReset s0) ps).wiegandBitCount = WIEGANDMAXDATA ∧
    (pulses (wiegandReset s0) ps).wiegandData = (bitsOf ps).take WIEGANDMAXDATA ∧
    (pulses (wiegandReset s0) ps).wiegandBitCount =
      (pulses (wiegandReset s0) (ps.take WIEGANDMAXDATA)).wiegandBitCount ∧
    (pulses (wiegandReset s0) ps).wiegandData =
      (pulses (wiegandReset s0) (ps.take WIEGANDMAXDATA)).wiegandData ∧
    (wiegandGetPendingBitCount (pulses (wiegandReset s0) ps) now > 0 →
      wiegandReadData (pulses (wiegandReset s0) ps) now data 32 =
        some ⟨32, (bitsOf ps).take WIEGANDMAXDATA ++ data.drop WIEGANDMAXDATA,
          wiegandReset (pulses (wiegandReset s0) ps)⟩) := by
  have hh := holds_pulses_reset s0 ps
  have hh2 := holds_pulses_reset s0 (ps.take WIEGANDMAXDATA)
  have hlen : ((bitsOf ps).take WIEGANDMAXDATA).length = WIEGANDMAXDATA := by
    simp [bitsOf]; omega
  have htake : (bitsOf (ps.take WIEGANDMAXDATA)).take WIEGANDMAXDATA
      = (bitsOf ps).take WIEGANDMAXDATA := by
    simp [bitsOf, List.map_take, List.take_take]
  rw [htake] at hh2
  have hdata : (pulses (wiegandReset s0) ps).wiegandData
      = (bitsOf ps).take WIEGANDMAXDATA := by
    rw [hh.1, hlen]; simp
  refine ⟨pulseWrites_lt ps _, by rw [hh.2.1, hlen], hdata, ?_, ?_, ?_⟩
  · rw [hh.2.1, hh2.2.1]
  · rw [hh.1, hh2.1]
  · intro hp
    have h := read_ready _ _ now data 32 hh hp (by decide)
      (by have : (32 : Nat) ≤ data.length := hd
          omega)
    rw [hlen] at h
    have hmin : min WIEGANDMAXDATA (32 : Int).toNat = WIEGANDMAXDATA := by decide
    rw [hmin, List.take_of_length_le (by rw [hlen])] at h
    exact h

set_option maxRecDepth 100000 in
/-- Witness for C7: `32 + 8` pulses (a `1` at every third position) from the
reset state, read 5 ms after the last pulse into a 32-byte block. -/
theorem C7_overflow_truncated_witness :
    WIEGANDMAXDATA < ((List.range 40).map
      (fun i => (i % 3 == 0, (⟨0, (i : Int)⟩ : Timespec)))).length ∧
    (pulses (wiegandReset initState)
      ((List.range 40).map (fun i => (i % 3 == 0, (⟨0, (i : Int)⟩ : Timespec))))).wiegandBitCount
        = 32 ∧
    wiegandReadData
        (pulses (wiegandReset initState)
          ((List.range 40).map (fun i => (i % 3 == 0, (⟨0, (i : Int)⟩ : Timespec)))))
        ⟨0, 5000039⟩ (List.replicate 32 7) 32 =
      some ⟨32,
        (bitsOf ((List.range 40).map
          (fun i => (i % 3 == 0, (⟨0, (i : Int)⟩ : Timespec))))).take WIEGANDMAXDATA ++
          (List.replicate 32 7).drop WIEGANDMAXDATA,
        wiegandReset (pulses (wiegandReset initState)
          ((List.range 40).map (fun i => (i % 3 == 0, (⟨0, (i : Int)⟩ : Timespec)))))⟩ :=
  ⟨by decide,
    (C7_overflow_truncated initState
      ((List.range 40).map (fun i => (i % 3 == 0, (⟨0, (i : Int)⟩ : Timespec))))
      ⟨0, 5000039⟩ (List.replicate 32 7) (by decide) (by decide)).2.1,
    (C7_overflow_truncated initState
      ((List.range 40).map (fun i => (i % 3 == 0, (⟨0, (i : Int)⟩ : Timespec))))
      ⟨0, 5000039⟩ (List.replicate 32 7) (by decide) (by decide)).2.2.2.2.2 (by decide)⟩

/-- C8: `wiegandReadData` never produces the documented error outcome. In
every state reachable from the initial state by pulses, resets and reads, at
every time and for every `dataMaxLen`, a value the call returns lies between
`0` and `32` inclusive and is never `-1`; and the call does return whenever
`0 ≤ dataMaxLen` fits the caller's block. -/
theorem C8_read_never_returns_error (s : State) (now : Timespec)
    (data : List Nat) (dataMaxLen : Int) (hs : Reachable s) :
    (∀ r, wiegandReadData s now data dataMaxLen = some r →
      0 ≤ r.ret ∧ r.ret ≤ 32 ∧ r.ret ≠ -1) ∧
    (0 ≤ dataMaxLen → dataMaxLen ≤ data.length →
      ∃ r, wiegandReadData s now data dataMaxLen = some r) := by
  have hle := reachable_count_le s hs
  have h32 : s.wiegandBitCount ≤ 32 := hle
  constructor
  · intro r hr
    rcases read_some_cases s now data dataMaxLen r hr with ⟨_, hret, _⟩ | ⟨_, hr0⟩
    · rw [hret, toInt32_of_le _ hle]
      omega
    · subst hr0
      simp
  · intro hm0 hm
    obtain ⟨bs, hb⟩ := hs
    by_cases hp : wiegandGetPendingBitCount s now > 0
    · exact ⟨_, read_ready s bs now data dataMaxLen (captured_holds s bs hb) hp hm0 hm⟩
    · exact ⟨_, read_idle s now data dataMaxLen hp⟩

/-- Witness for C8: the state after `32 + 8` pulses, read into a 32-byte
block, returns a value in range. -/
theorem C8_read_never_returns_error_witness :
    ∃ r, wiegandReadData
        (pulses initState (List.replicate 40 (true, ⟨0, 0⟩))) ⟨0, 5000000⟩
        (List.replicate 32 7) 32 = some r ∧
      0 ≤ r.ret ∧ r.ret ≤ 32 ∧ r.ret ≠ -1 :=
  match (C8_read_never_returns_error
      (pulses initState (List.replicate 40 (true, ⟨0, 0⟩))) ⟨0, 5000000⟩
      (List.replicate 32 7) 32
      ⟨_, captured_pulses (List.replicate 40 (true, ⟨0, 0⟩)) initState []
        Captured.init⟩).2 (by decide) (by decide) with
  | ⟨r, hr⟩ =>
    ⟨r, hr, (C8_read_never_returns_error
      (pulses initState (List.replicate 40 (true, ⟨0, 0⟩))) ⟨0, 5000000⟩
      (List.replicate 32 7) 32
      ⟨_, captured_pulses (List.replicate 40 (true, ⟨0, 0⟩)) initState []
        Captured.init⟩).1 r hr⟩

/-- C9: polling with no frame ready has no effect. For every state and time at
which `wiegandGetPendingBitCount` returns `0` (empty buffer, or bits
accumulated and the detector not yet positive), `wiegandReadData` returns `0`
and leaves the caller's block and all three statics (buffer, count, last-bit
timestamp) exactly as they were. -/
theorem C9_poll_without_frame_changes_nothing (s : State) (now : Timespec)
    (data : List Nat) (dataMaxLen : Int)
    (h : wiegandGetPendingBitCount s now = 0) :
    wiegandReadData s now data dataMaxLen = some ⟨0, data, s⟩ :=
  read_idle s now data dataMaxLen (by rw [h]; decide)

/-- Witness for C9: three bits captured, polled 1 ms after the last pulse. -/
theorem C9_poll_without_frame_changes_nothing_witness :
    wiegandGetPendingBitCount
        ⟨[1, 0, 1] ++ List.replicate 29 0, 3, ⟨4, 2000000⟩⟩ ⟨4, 3000000⟩ = 0 ∧
    wiegandReadData ⟨[1, 0, 1] ++ List.replicate 29 0, 3, ⟨4, 2000000⟩⟩
        ⟨4, 3000000⟩ [9, 9, 9] 3 =
      some ⟨0, [9, 9, 9], ⟨[1, 0, 1] ++ List.replicate 29 0, 3, ⟨4, 2000000⟩⟩⟩ :=
  ⟨by decide,
    C9_poll_without_frame_changes_nothing
      ⟨[1, 0, 1] ++ List.replicate 29 0, 3, ⟨4, 2000000⟩⟩ ⟨4, 3000000⟩ [9, 9, 9] 3
      (by decide)⟩

/-- C10: field extraction under the fixed 26-bit layout. For every frame `b`
of `L ≤ 32` bits, each `0` or `1`, the decode loop started from
`raw = facility = code = 0` ends with `facility` equal to the MSB-first value
of the bits at positions `1 ≤ i ≤ 8`, `i < L`, and `code` equal to the
MSB-first value of the bits at positions `9 ≤ i ≤ 24`, `i < L`; so `facility`
is below `2^8`, `code` below `2^16`, and a frame of the same length that
agrees with `b` on positions `1..24` (differing at position `0` or at
positions `≥ 25`) gives the same `facility` and `code`. -/
theorem C10_field_extraction (b : List Nat) (_hL : b.length ≤ 32)
    (hb : ∀ x ∈ b, x ≤ 1) :
    (decodeLoop b b.length).facility = msbValue ((b.take 9).drop 1) ∧
    (decodeLoop b b.length).code = msbValue ((b.take 25).drop 9) ∧
    (decodeLoop b b.length).facility < 2 ^ 8 ∧
    (decodeLoop b b.length).code < 2 ^ 16 ∧
    ∀ c : List Nat, c.length = b.length → (∀ x ∈ c, x ≤ 1) →
      (c.take 25).drop 1 = (b.take 25).drop 1 →
      (decodeLoop c c.length).facility = (decodeLoop b b.length).facility ∧
      (decodeLoop c c.length).code = (decodeLoop b b.length).code := by
  have key : ∀ c : List Nat, (∀ x ∈ c, x ≤ 1) →
      (decodeLoop c c.length).facility = msbValue ((c.take 9).drop 1) ∧
      (decodeLoop c c.length).code = msbValue ((c.take 25).drop 9) := by
    intro c hc
    have h := decodeLoop_fields c hc c.length (Nat.le_refl _)
    have e1 : c.take (min c.length 9) = c.take 9 := by
      rw [Nat.min_comm, ← List.take_take, List.take_length]
    have e2 : c.take (min c.length 25) = c.take 25 := by
      rw [Nat.min_comm, ← List.take_take, List.take_length]
    rw [e1, e2] at h
    exact h
  have hf9 : ∀ c : List Nat, (c.take 9).drop 1 = (((c.take 25).drop 1).take 8) := by
    intro c
    rw [List.take_drop, List.take_take]
    rfl
  have hc9 : ∀ c : List Nat, (c.take 25).drop 9 = (((c.take 25).drop 1).drop 8) := by
    intro c
    rw [List.drop_drop]
  obtain ⟨kf, kc⟩ := key b hb
  have bf := field_lt b 1 9 b.length hb
  have bc := field_lt b 9 25 b.length hb
  have e1 : b.take (min b.length 9) = b.take 9 := by
    rw [Nat.min_comm, ← List.take_take, List.take_length]
  have e2 : b.take (min b.length 25) = b.take 25 := by
    rw [Nat.min_comm, ← List.take_take, List.take_length]
  rw [e1] at bf
  rw [e2] at bc
  refine ⟨kf, kc, by rw [kf]; exact bf, by rw [kc]; exact bc, ?_⟩
  intro c _ hc hagree
  obtain ⟨cf, cc⟩ := key c hc
  rw [cf, cc, kf, kc, hf9 c, hf9 b, hc9 c, hc9 b, hagree]
  exact ⟨rfl, rfl⟩

/-- Witness for C10: the 26-bit frame with leading parity `0`, facility byte
`0b00000001`, card field `0x0002` and trailing parity `1` decodes to
`facility = 1`, `code = 2`. -/
theorem C10_field_extraction_witness :
    (decodeLoop
      [0, 0, 0, 0, 0, 0, 0, 0, 1, 0, 0, 0, 0, 0, 0, 0, 0, 0, 0, 0, 0, 0, 0, 1, 0, 1]
      26).facility = 1 ∧
    (decodeLoop
      [0, 0, 0, 0, 0, 0, 0, 0, 1, 0, 0, 0, 0, 0, 0, 0, 0, 0, 0, 0, 0, 0, 0, 1, 0, 1]
      26).code = 2 :=
  ⟨(C10_field_extraction
      [0, 0, 0, 0, 0, 0, 0, 0, 1, 0, 0, 0, 0, 0, 0, 0, 0, 0, 0, 0, 0, 0, 0, 1, 0, 1]
      (by decide) (by decide)).1,
    (C10_field_extraction
      [0, 0, 0, 0, 0, 0, 0, 0, 1, 0, 0, 0, 0, 0, 0, 0, 0, 0, 0, 0, 0, 0, 0, 1, 0, 1]
      (by decide) (by decide)).2.1⟩

/-- C11 (counterexample): for the 32-bit frame `1` followed by thirty-one
`0`, the `int` variable `raw` ends at `-2147483648`, not at the unsigned value
`2147483648` of the bits. -/
theorem C11_raw_negative_at_32_bits :
    msbValue (1 :: List.replicate 31 0) = 2147483648 ∧
    rawValue (decodeLoop (1 :: List.replicate 31 0) 32) = -2147483648 ∧
    rawValue (decodeLoop (1 :: List.replicate 31 0) 32) ≠
      (msbValue (1 :: List.replicate 31 0) : Int) := by
  refine ⟨by decide, by decide, by decide⟩

/-- C11 (amended): for every frame `b` of `0 ≤ L ≤ 32` bits, each `0` or `1`,
the 32-bit pattern of `raw` after the decode loop (what `%X` prints) is the
unsigned value of all `L` bits read MSB-first. As a signed `int`, `raw` equals
that value whenever it is below `2^31` (every `L ≤ 31`, and `L = 32` with
leading bit `0`), and equals it minus `2^32` otherwise (`L = 32` with leading
bit `1`). -/
theorem C11_raw_pattern_is_msb_value (b : List Nat) (hL : b.length ≤ 32)
    (hb : ∀ x ∈ b, x ≤ 1) :
    (decodeLoop b b.length).raw = msbValue b ∧
    (msbValue b < 2 ^ 31 →
      rawValue (decodeLoop b b.length) = (msbValue b : Int)) ∧
    (b.length ≤ 31 → msbValue b < 2 ^ 31) ∧
    (2 ^ 31 ≤ msbValue b →
      rawValue (decodeLoop b b.length) = (msbValue b : Int) - 2 ^ 32) := by
  have hraw : (decodeLoop b b.length).raw = msbValue b := by
    have h := decodeLoop_raw b hb b.length (Nat.le_refl _) hL
    rw [List.take_length] at h
    exact h
  have hlt := msbValue_lt b hb
  refine ⟨hraw, ?_, ?_, ?_⟩
  · intro h
    unfold rawValue
    rw [hraw, toInt32_of_lt _ h]
  · intro h31
    exact Nat.lt_of_lt_of_le hlt (Nat.pow_le_pow_right (by decide) h31)
  · intro h
    have h32 : msbValue b < 2 ^ 32 :=
      Nat.lt_of_lt_of_le hlt (Nat.pow_le_pow_right (by decide) hL)
    unfold rawValue
    rw [hraw, toInt32_of_ge _ h h32]

/-- Witness for C11 (amended): the 26-bit frame with parity `0`, facility
`1`, card `2`, trailing parity `1` has `raw = 0x20005`, also as an `int`. -/
theorem C11_raw_pattern_is_msb_value_witness :
    (decodeLoop
      [0, 0, 0, 0, 0, 0, 0, 0, 1, 0, 0, 0, 0, 0, 0, 0, 0, 0, 0, 0, 0, 0, 0, 1, 0, 1]
      26).raw = 0x20005 ∧
    rawValue (decodeLoop
      [0, 0, 0, 0, 0, 0, 0, 0, 1, 0, 0, 0, 0, 0, 0, 0, 0, 0, 0, 0, 0, 0, 0, 1, 0, 1]
      26) = 0x20005 :=
  ⟨(C11_raw_pattern_is_msb_value
      [0, 0, 0, 0, 0, 0, 0, 0, 1, 0, 0, 0, 0, 0, 0, 0, 0, 0, 0, 0, 0, 0, 0, 1, 0, 1]
      (by decide) (by decide)).1,
    (C11_raw_pattern_is_msb_value
      [0, 0, 0, 0, 0, 0, 0, 0, 1, 0, 0, 0, 0, 0, 0, 0, 0, 0, 0, 0, 0, 0, 0, 1, 0, 1]
      (by decide) (by decide)).2.1 (by decide)⟩

/-- C12 (fails on the code): five bits captured, last pulse at `10.0 s`, no
pulse or read in between. The detector returns `5` at `10.004 s` and `0` at
`11.0 s`, although both query times are at least 3 ms after the pulse, so a
frame already reported as ready stops being reported. The statics are the
same after both calls. -/
theorem C12_reported_frame_disappears :
    elapsedNs ⟨10, 0⟩ ⟨10, 4000000⟩ ≥ WIEGANDTIMEOUT ∧
    elapsedNs ⟨10, 0⟩ ⟨11, 0⟩ ≥ WIEGANDTIMEOUT ∧
    wiegandGetPendingBitCount
      ⟨[1, 0, 1, 1, 0] ++ List.replicate 27 0, 5, ⟨10, 0⟩⟩ ⟨10, 4000000⟩ = 5 ∧
    wiegandGetPendingBitCount
      ⟨[1, 0, 1, 1, 0] ++ List.replicate 27 0, 5, ⟨10, 0⟩⟩ ⟨11, 0⟩ = 0 ∧
    run ⟨[1, 0, 1, 1, 0] ++ List.replicate 27 0, 5, ⟨10, 0⟩⟩
        [Event.pending ⟨10, 4000000⟩, Event.pending ⟨11, 0⟩] =
      some ⟨[1, 0, 1, 1, 0] ++ List.replicate 27 0, 5, ⟨10, 0⟩⟩ := by
  refine ⟨by decide, by decide, by decide, by decide, by decide⟩

/-- C13 (fails on the code): with 31 bits captured, `data0Pulse` and
`data1Pulse` are both entered (both lines asserted at once) and interleaved
statement by statement. Both pass the test `__wiegandBitCount < 32` at count
`31`; `data0Pulse` writes cell `31` and increments the count to `32`; then
`data1Pulse` writes at subscript `32`, outside the 32-entry buffer, twice, and
increments the count to `33`. -/
theorem C13_interleaved_pulses_overrun :
    run initState (List.replicate 31 (Event.data0 ⟨0, 0⟩)) =
      some ⟨List.replicate 32 0, 31, ⟨0, 0⟩⟩ ∧
    interleave ⟨0, 100⟩ ⟨0, 100⟩
        ⟨⟨List.replicate 32 0, 31, ⟨0, 0⟩⟩, Pc.guard, Pc.guard, []⟩
        [false, true, false, false, true, true, true, false, true] =
      ⟨⟨List.replicate 32 0, 33, ⟨0, 100⟩⟩, Pc.done, Pc.done, [31, 32, 32]⟩ ∧
    ¬ (interleave ⟨0, 100⟩ ⟨0, 100⟩
        ⟨⟨List.replicate 32 0, 31, ⟨0, 0⟩⟩, Pc.guard, Pc.guard, []⟩
        [false, true, false, false, true, true, true, false, true]).shared.wiegandBitCount
      ≤ WIEGANDMAXDATA ∧
    ¬ ∀ i ∈ (interleave ⟨0, 100⟩ ⟨0, 100⟩
        ⟨⟨List.replicate 32 0, 31, ⟨0, 0⟩⟩, Pc.guard, Pc.guard, []⟩
        [false, true, false, false, true, true, true, false, true]).writes,
      i < WIEGANDMAXDATA := by
  refine ⟨by decide, by decide, by decide, by decide⟩

/-- C14: state invariant under sequential execution. In every state reached
from the zero-initialised statics by any sequence of `data0Pulse`,
`data1Pulse`, `wiegandReset`, `wiegandGetPendingBitCount` and
`wiegandReadData` calls, the buffer has its 32 entries, the bit count is at
most `32`, every entry below the count is `0` or `1`, and every entry at or
above the count is `0`; and every such sequence whose reads stay within their
contract does reach a state. -/
theorem C14_sequential_invariant (evs : List Event) :
    (∀ s, run initState evs = some s →
      s.wiegandData.length = WIEGANDMAXDATA ∧
      s.wiegandBitCount ≤ WIEGANDMAXDATA ∧
      (∀ i, i < s.wiegandBitCount → s.wiegandData.getD i 0 ≤ 1) ∧
      (∀ i, s.wiegandBitCount ≤ i → s.wiegandData.getD i 0 = 0)) ∧
    ((∀ e ∈ evs, e.ArgsFit) → ∃ s, run initState evs = some s) := by
  constructor
  · intro s hrun
    obtain ⟨bs, hb⟩ := run_captured evs initState s [] Captured.init hrun
    have hh := captured_holds s bs hb
    obtain ⟨h1, h2, h3⟩ := holds_entries s bs hh
    exact ⟨h1, by rw [hh.2.1]; exact hh.2.2.1, h2, h3⟩
  · intro hfit
    exact run_defined evs initState [] Captured.init hfit

/-- Witness for C14: two pulses, a poll, a read at 5 ms that drains them, and
one more pulse. -/
theorem C14_sequential_invariant_witness :
    run initState
        [Event.data1 ⟨0, 0⟩, Event.data0 ⟨0, 1⟩, Event.pending ⟨0, 2⟩,
          Event.read ⟨0, 5000000⟩ [9, 9] 2, Event.data1 ⟨1, 0⟩] =
      some ⟨1 :: List.replicate 31 0, 1, ⟨1, 0⟩⟩ ∧
    (1 :: List.replicate 31 0).length = WIEGANDMAXDATA ∧
    1 ≤ WIEGANDMAXDATA ∧
    (1 :: List.replicate 31 0).getD 0 0 ≤ 1 ∧
    (1 :: List.replicate 31 0).getD 1 0 = 0 :=
  ⟨by decide,
    ((C14_sequential_invariant
      [Event.data1 ⟨0, 0⟩, Event.data0 ⟨0, 1⟩, Event.pending ⟨0, 2⟩,
        Event.read ⟨0, 5000000⟩ [9, 9] 2, Event.data1 ⟨1, 0⟩]).1
      ⟨1 :: List.replicate 31 0, 1, ⟨1, 0⟩⟩ (by decide)).1,
    ((C14_sequential_invariant
      [Event.data1 ⟨0, 0⟩, Event.data0 ⟨0, 1⟩, Event.pending ⟨0, 2⟩,
        Event.read ⟨0, 5000000⟩ [9, 9] 2, Event.data1 ⟨1, 0⟩]).1
      ⟨1 :: List.replicate 31 0, 1, ⟨1, 0⟩⟩ (by decide)).2.1,
    ((C14_sequential_invariant
      [Event.data1 ⟨0, 0⟩, Event.data0 ⟨0, 1⟩, Event.pending ⟨0, 2⟩,
        Event.read ⟨0, 5000000⟩ [9, 9] 2, Event.data1 ⟨1, 0⟩]).1
      ⟨1 :: List.replicate 31 0, 1, ⟨1, 0⟩⟩ (by decide)).2.2.1 0 (by decide),
    ((C14_sequential_invariant
      [Event.data1 ⟨0, 0⟩, Event.data0 ⟨0, 1⟩, Event.pending ⟨0, 2⟩,
        Event.read ⟨0, 5000000⟩ [9, 9] 2, Event.data1 ⟨1, 0⟩]).1
      ⟨1 :: List.replicate 31 0, 1, ⟨1, 0⟩⟩ (by decide)).2.2.2 1 (by decide)⟩

/-- C15: single-pulse semantics. In every state reached by sequential
execution, with bit count `c`, the pulse callback for the bit `v`
(`data0Pulse` for `0`, `data1Pulse` for `1`) with clock reading `t`: when
`c < 32` stores exactly `v` at index `c`, leaves every other buffer entry as
it was and makes the count `c + 1`; when `c = 32` (the only other case)
leaves buffer and count as they were; and in both cases sets the last-bit
timestamp to `t`. -/
theorem C15_single_pulse (evs : List Event) (s : State) (v : Bool) (t : Timespec)
    (hs : run initState evs = some s) :
    (s.wiegandBitCount < WIEGANDMAXDATA →
      (pulse s v t).wiegandData = s.wiegandData.set s.wiegandBitCount v.toNat ∧
      (pulse s v t).wiegandData.getD s.wiegandBitCount 0 = v.toNat ∧
      (pulse s v t).wiegandBitCount = s.wiegandBitCount + 1) ∧
    (s.wiegandBitCount = WIEGANDMAXDATA →
      (pulse s v t).wiegandData = s.wiegandData ∧
      (pulse s v t).wiegandBitCount = s.wiegandBitCount) ∧
    (s.wiegandBitCount < WIEGANDMAXDATA ∨ s.wiegandBitCount = WIEGANDMAXDATA) ∧
    (pulse s v t).wiegandBitTime = t ∧
    pulse s false t = data0Pulse s t ∧ pulse s true t = data1Pulse s t := by
  obtain ⟨bs, hb⟩ := run_captured evs initState s [] Captured.init hs
  have hh := captured_holds s bs hb
  have hle : s.wiegandBitCount ≤ WIEGANDMAXDATA := by rw [hh.2.1]; exact hh.2.2.1
  refine ⟨fun hlt => pulse_store_set s bs v t hh hlt, ?_, by omega, pulse_time s v t,
    rfl, rfl⟩
  intro hfull
  rw [pulse_full s v t (by omega)]
  exact ⟨rfl, rfl⟩

/-- Witness for C15: after 31 `0` pulses, a `1` pulse at `7 ns` stores `1` in
the last cell and makes the count `32`. -/
theorem C15_single_pulse_witness :
    run initState (List.replicate 31 (Event.data0 ⟨0, 0⟩)) =
      some ⟨List.replicate 32 0, 31, ⟨0, 0⟩⟩ ∧
    (pulse ⟨List.replicate 32 0, 31, ⟨0, 0⟩⟩ true ⟨0, 7⟩).wiegandData =
      (List.replicate 32 0).set 31 1 ∧
    (pulse ⟨List.replicate 32 0, 31, ⟨0, 0⟩⟩ true ⟨0, 7⟩).wiegandData.getD 31 0 = 1 ∧
    (pulse ⟨List.replicate 32 0, 31, ⟨0, 0⟩⟩ true ⟨0, 7⟩).wiegandBitCount = 32 ∧
    (pulse ⟨List.replicate 32 0, 31, ⟨0, 0⟩⟩ true ⟨0, 7⟩).wiegandBitTime = ⟨0, 7⟩ :=
  ⟨by decide,
    ((C15_single_pulse (List.replicate 31 (Event.data0 ⟨0, 0⟩))
      ⟨List.replicate 32 0, 31, ⟨0, 0⟩⟩ true ⟨0, 7⟩ (by decide)).1 (by decide)).1,
    ((C15_single_pulse (List.replicate 31 (Event.data0 ⟨0, 0⟩))
      ⟨List.replicate 32 0, 31, ⟨0, 0⟩⟩ true ⟨0, 7⟩ (by decide)).1 (by decide)).2.1,
    ((C15_single_pulse (List.replicate 31 (Event.data0 ⟨0, 0⟩))
      ⟨List.replicate 32 0, 31, ⟨0, 0⟩⟩ true ⟨0, 7⟩ (by decide)).1 (by decide)).2.2,
    (C15_single_pulse (List.replicate 31 (Event.data0 ⟨0, 0⟩))
      ⟨List.replicate 32 0, 31, ⟨0, 0⟩⟩ true ⟨0, 7⟩ (by decide)).2.2.2.1⟩

/-- C16: a pending frame cannot stay hidden indefinitely. For every state with
bit count `c > 0` (representable as an `int`) and every query time, both
timestamps normalised, whose true elapsed time since the last pulse is at
least 2 seconds, `wiegandGetPendingBitCount` returns `c`, whatever the
nanosecond fields are. -/
theorem C16_reported_after_two_seconds (s : State) (now : Timespec)
    (hlast : s.wiegandBitTime.Normalized) (hnow : now.Normalized)
    (hc0 : 0 < s.wiegandBitCount) (hc : s.wiegandBitCount < 2 ^ 31)
    (h2s : 2000000000 ≤ elapsedNs s.wiegandBitTime now) :
    wiegandGetPendingBitCount s now = (s.wiegandBitCount : Int) ∧
    wiegandGetPendingBitCount s now > 0 := by
  obtain ⟨l0, l1⟩ := hlast
  obtain ⟨n0, n1⟩ := hnow
  simp only [elapsedNs] at h2s
  have hret : wiegandGetPendingBitCount s now = (s.wiegandBitCount : Int) := by
    simp only [wiegandGetPendingBitCount]
    rw [if_pos (Or.inl (by omega)), toInt32_of_lt _ hc]
  exact ⟨hret, by rw [hret]; omega⟩

/-- Witness for C16: five bits, last pulse at `10.999999999 s`, query at
`13.0 s` (nanosecond difference negative). -/
theorem C16_reported_after_two_seconds_witness :
    wiegandGetPendingBitCount
        ⟨[1, 0, 1, 1, 0] ++ List.replicate 27 0, 5, ⟨10, 999999999⟩⟩ ⟨13, 0⟩ = 5 ∧
    wiegandGetPendingBitCount
        ⟨[1, 0, 1, 1, 0] ++ List.replicate 27 0, 5, ⟨10, 999999999⟩⟩ ⟨13, 0⟩ > 0 :=
  C16_reported_after_two_seconds
    ⟨[1, 0, 1, 1, 0] ++ List.replicate 27 0, 5, ⟨10, 999999999⟩⟩ ⟨13, 0⟩
    (by decide) (by decide) (by decide) (by decide) (by decide)

end Wiegand
